import Mathlib

/-
Verification of the settings validator/lexer (`robot/parsing/lexer/settings.py`)
and of the tidy formatting passes (`robot/tidypkg/transformers.py`).

The Python code mutates a token tree in place; here every operation is a pure
function from the old state to the new state.  Machine-level details (source
positions, aliasing of token objects) are modelled explicitly where they are
observable and noted in comments where they are not.
-/

set_option autoImplicit false

namespace Robot

/-- Modelled from the spec: the `Token` class of `robot/parsing/lexer/tokens.py`
is outside the provided sources; per the spec a token is an atomic unit with a
mutable semantic `type`, a mutable literal `value` and an `error` slot holding
an optional diagnostic.  Source positions are omitted: none of the verified
code reads them.  Token types are the string constants of the `Token` class. -/
structure Token where
  type : String
  value : String
  error : Option String := none
  deriving DecidableEq, Repr

/-- Shorthand for a token with no error attached. -/
def mkTok (ty v : String) : Token := ⟨ty, v, none⟩

def ERROR : String := "ERROR"
def COMMENT : String := "COMMENT"
def NAME : String := "NAME"
def ARGUMENT : String := "ARGUMENT"
def SEPARATOR : String := "SEPARATOR"
def EOL : String := "EOL"
def TESTCASE_HEADER : String := "TESTCASE HEADER"
def COMMENT_HEADER : String := "COMMENT HEADER"
def KEYWORD_HEADER : String := "KEYWORD HEADER"
def KEYWORD : String := "KEYWORD"
def ASSIGN : String := "ASSIGN"
def CONTINUATION : String := "CONTINUATION"
def FOR : String := "FOR"
def SETTING_HEADER : String := "SETTING HEADER"

/-- Helper for `normalizeWhitespace`: collapses every run of whitespace
characters into a single space; the flag records whether the previous
character was whitespace. -/
def collapseWSAux : Bool → List Char → List Char
  | _, [] => []
  | prevWS, c :: cs =>
    if c.isWhitespace then
      if prevWS then collapseWSAux true cs
      else ' ' :: collapseWSAux true cs
    else c :: collapseWSAux false cs

/-- Modelled from the spec: `robot.utils.normalize_whitespace` is outside the
provided sources; per the spec, name normalization collapses internal
whitespace.  Every run of whitespace becomes a single space. -/
def normalizeWhitespace (s : String) : String :=
  String.mk (collapseWSAux false s.data)

/-- Python `str.upper`, character by character (the setting names involved are
ASCII, where `Char.toUpper` and Python agree). -/
def strUpper (s : String) : String :=
  String.mk (s.data.map Char.toUpper)

/-- Python `str.strip` with no argument: remove leading and trailing
whitespace. -/
def strTrim (s : String) : String :=
  String.mk (((s.data.dropWhile Char.isWhitespace).reverse.dropWhile
    Char.isWhitespace).reverse)

/-- Python `name.replace(' ', '_')`: the pattern is a single character, so
this is a character-wise map. -/
def spaceToUnderscore (s : String) : String :=
  String.mk (s.data.map (fun c => if c == ' ' then '_' else c))

/-- Membership of `a` in `b` as an infix, mirroring the Python `in` operator
on strings (used because two scopes define `single_value` as a plain string,
not a tuple, so `normalized in self.single_value` is a substring test). -/
def infixOfAux (a : List Char) : List Char → Bool
  | [] => a.isEmpty
  | x :: xs => a.isPrefixOf (x :: xs) || infixOfAux a xs

/-- String infix test: Python `a in b` for strings. -/
def strInfix (a b : String) : Bool := infixOfAux a.data b.data

/-- The mutable settings table of one `Settings` instance: the Python dict
`{name: value-or-None}` whose keys are exactly the scope's recognized names. -/
abbrev SettingsMap := List (String × Option (List Token))

/-- Static configuration of one `Settings` subclass: recognized names, alias
table, multi-use subset, the single-value membership test (a function because
the source sometimes declares `single_value` as a plain string, making the
Python `in` a substring test) and the `_format_name` hook. -/
structure SettingsConf where
  names : List String
  aliases : List (String × String)
  multiUse : List String
  singleValueTest : String → Bool
  formatName : String → String

/-- `name_and_arguments` is a class attribute of the base `Settings` class,
shared by every scope. -/
def nameAndArguments : List String :=
  ["METADATA", "SUITE SETUP", "SUITE TEARDOWN", "TEST SETUP", "TEST TEARDOWN",
   "TEST TEMPLATE", "SETUP", "TEARDOWN", "TEMPLATE", "LIBRARY", "RESOURCE",
   "VARIABLES"]

/-- `Settings.__init__`: `self.settings = {n: None for n in self.names}`. -/
def initMap (conf : SettingsConf) : SettingsMap :=
  conf.names.map (fun n => (n, none))

/-- `Settings._normalize_name`: collapse whitespace, uppercase, resolve
through the alias table. -/
def normalizeName (conf : SettingsConf) (name : String) : String :=
  let n := strUpper (normalizeWhitespace name)
  match List.lookup n conf.aliases with
  | some a => a
  | none => n

def nonExistingMsg (name : String) : String :=
  "Non-existing setting '" ++ name ++ "'."

def allowedOnceMsg (name : String) : String :=
  "Setting '" ++ name ++ "' allowed only once. Only the first value is used."

def tooManyMsg (name : String) (stmtLen : Nat) : String :=
  "Setting '" ++ name ++ "' accepts only one value, got " ++
    toString (stmtLen - 1) ++ "."

/-- `Settings._validate`.  `ValueError` is modelled as `Except.error` carrying
the message.  `normalized not in self.settings` is a key test on the dict,
whose keys are exactly `names` (looked up here in the current map, whose key
set is invariant). -/
def validate (conf : SettingsConf) (settings : SettingsMap)
    (name normalized : String) (statement : List Token) : Except String Unit :=
  match List.lookup normalized settings with
  | none => Except.error (nonExistingMsg name)
  | some stored =>
    if stored.isSome && !(conf.multiUse.contains normalized) then
      Except.error (allowedOnceMsg name)
    else if conf.singleValueTest normalized && statement.length > 2 then
      Except.error (tooManyMsg name statement.length)
    else Except.ok ()

/-- `Settings._lex_comment`: demote every token to the comment type. -/
def lexComment (tokens : List Token) : List Token :=
  tokens.map (fun t => { t with type := COMMENT })

/-- `Settings._lex_arguments`: tag every token as an ordered argument. -/
def lexArguments (tokens : List Token) : List Token :=
  tokens.map (fun t => { t with type := ARGUMENT })

/-- `Settings._lex_name_and_arguments`: first token is the referenced name,
the rest are its arguments. -/
def lexNameAndArguments : List Token → List Token
  | [] => []
  | t :: ts => { t with type := NAME } :: lexArguments ts

/-- Dict update `self.settings[normalized] = v` for a key already present
(`_validate` guarantees the key exists before any assignment). -/
def setValue (settings : SettingsMap) (key : String) (v : Option (List Token)) :
    SettingsMap :=
  settings.map (fun p => if p.1 == key then (p.1, v) else p)

/-- `Settings.lex`.  Returns the new settings table together with the lexed
statement.  In the source the value stored in the dict aliases the statement's
token objects, which are then type-tagged in place; the pure model therefore
stores the tokens as they are after tagging.  The empty case is unreachable in
the source (`statement[0]` would raise). -/
def lexSetting (conf : SettingsConf) (settings : SettingsMap) :
    List Token → SettingsMap × List Token
  | [] => (settings, [])
  | setting :: rest =>
    let name := conf.formatName setting.value
    let normalized := normalizeName conf name
    match validate conf settings name normalized (setting :: rest) with
    | Except.error msg =>
      (settings,
       { setting with type := ERROR, error := some msg } :: lexComment rest)
    | Except.ok _ =>
      let setting2 := { setting with type := spaceToUnderscore normalized }
      let rest2 :=
        if nameAndArguments.contains normalized then lexNameAndArguments rest
        else lexArguments rest
      (setValue settings normalized (some rest2), setting2 :: rest2)

/-- `TestCaseSettings._format_name` and `KeywordSettings._format_name`:
`name[1:-1].strip()` drops the enclosing bracket characters and trims. -/
def stripBrackets (name : String) : String :=
  strTrim (String.mk ((name.data.drop 1).dropLast))

/-- `TestCaseFileSettings` static configuration. -/
def testCaseFileSettingsConf : SettingsConf where
  names := ["DOCUMENTATION", "METADATA", "SUITE SETUP", "SUITE TEARDOWN",
            "TEST SETUP", "TEST TEARDOWN", "TEST TEMPLATE", "TEST TIMEOUT",
            "FORCE TAGS", "DEFAULT TAGS", "LIBRARY", "RESOURCE", "VARIABLES"]
  aliases := [("TASK SETUP", "TEST SETUP"), ("TASK TEARDOWN", "TEST TEARDOWN"),
              ("TASK TEMPLATE", "TEST TEMPLATE"), ("TASK TIMEOUT", "TEST TIMEOUT")]
  multiUse := ["METADATA", "LIBRARY", "RESOURCE", "VARIABLES"]
  singleValueTest := fun n =>
    ["RESOURCE", "TEST TIMEOUT", "TEST TEMPLATE"].contains n
  formatName := id

/-- `InitFileSettings`: the class body is an intentionally unfinished
placeholder, so everything is inherited from the base `Settings` class, whose
`names`, `aliases`, `multi_use` and `single_value` are all empty. -/
def initFileSettingsConf : SettingsConf where
  names := []
  aliases := []
  multiUse := []
  singleValueTest := fun _ => false
  formatName := id

/-- `ResourceFileSettings`.  In the source `single_value = ('RESOURCE')` is a
plain string (no trailing comma), so membership is the Python substring test. -/
def resourceFileSettingsConf : SettingsConf where
  names := ["DOCUMENTATION", "LIBRARY", "RESOURCE", "VARIABLES"]
  aliases := []
  multiUse := ["LIBRARY", "RESOURCE", "VARIABLES"]
  singleValueTest := fun n => strInfix n ("RESOURCE")
  formatName := id

/-- `TestCaseSettings` static configuration (the parent file scope is passed
separately where it is needed). -/
def testCaseSettingsConf : SettingsConf where
  names := ["DOCUMENTATION", "TAGS", "SETUP", "TEARDOWN", "TEMPLATE", "TIMEOUT"]
  aliases := []
  multiUse := []
  singleValueTest := fun n => ["TIMEOUT", "TEMPLATE"].contains n
  formatName := stripBrackets

/-- `KeywordSettings`.  As for resources, `single_value = ('TIMEOUT')` is a
plain string, so membership is the Python substring test. -/
def keywordSettingsConf : SettingsConf where
  names := ["DOCUMENTATION", "ARGUMENTS", "TEARDOWN", "TIMEOUT", "TAGS", "RETURN"]
  aliases := []
  multiUse := []
  singleValueTest := fun n => strInfix n ("TIMEOUT")
  formatName := stripBrackets

/-- `TestCaseSettings._has_override_value`: an explicitly empty template or an
explicit (case-insensitive) NONE sentinel. -/
def hasOverrideValue : Option (List Token) → Bool
  | none => false
  | some [] => true
  | some (t :: _) => strUpper t.value == "NONE"

/-- `TestCaseSettings._has_value`: Python truthiness of
`template and template[0].value`. -/
def hasValue : Option (List Token) → Bool
  | none => false
  | some [] => false
  | some (t :: _) => !(t.value == "")

/-- `TestCaseSettings.template_set`: the test's own TEMPLATE entry and the
parent file scope's TEST TEMPLATE entry.  Both keys are always present in the
respective dicts; a missing key (which would raise in Python) reads as unset
here. -/
def templateSet (own parent : SettingsMap) : Bool :=
  let tt := (List.lookup ("TEMPLATE") own).join
  if hasOverrideValue tt then false
  else hasValue tt || hasValue ((List.lookup ("TEST TEMPLATE") parent).join)

/-- Modelled from the spec: statements of the parsing model expose `type`,
`tokens` and `lines`; the statement classes live outside the provided sources.
`type` is the statement's semantic kind (a token-type constant) and `tokens`
the flattened token sequence. -/
structure Statement where
  type : String
  tokens : List Token
  deriving DecidableEq, Repr

/-- Helper for `splitLines`: accumulates the current line (reversed) and
starts a new line after every EOL token. -/
def splitLinesAux (cur : List Token) : List Token → List (List Token)
  | [] => if cur.isEmpty then [] else [cur.reverse]
  | t :: ts =>
    if t.type == EOL then (cur.reverse ++ [t]) :: splitLinesAux [] ts
    else splitLinesAux (t :: cur) ts

/-- Modelled from the spec: `Statement.lines` groups the flattened tokens by
physical source line; a line ends with its EOL token, and trailing tokens
without an EOL form a final line. -/
def splitLines (tokens : List Token) : List (List Token) :=
  splitLinesAux [] tokens

/-- Python string repetition `s * n`. -/
def strRepeat (s : String) : Nat → String
  | 0 => ""
  | n + 1 => s ++ strRepeat s n

/-- A string of `n` spaces. -/
def spacesStr : Nat → String
  | 0 => ""
  | n + 1 => (" ") ++ spacesStr n

/-- A separator token with the given text, as created by the transformers. -/
def sepTok (v : String) : Token := mkTok SEPARATOR v

/-- One step of the `for index, token in enumerate(line)` loop of
`PipeAdder.visit_Statement`: at index 0 with a positive indent the value is
rewritten to the indented pipe prefix (the token there is always the leading
separator), and at every later index a separator's value becomes the canonical
interior separator. -/
def pipeTok (indent i : Nat) (t : Token) : Token :=
  let t1 :=
    if i == 0 && !(indent == 0) then
      { t with value := strRepeat ("|    ") indent ++ ("| ") }
    else t
  if !(i == 0) && t1.type == SEPARATOR then { t1 with value := (" | ") } else t1

/-- The enumerate loop of `PipeAdder.visit_Statement`, starting at index `i`. -/
def pipeLoop (indent i : Nat) : List Token → List Token
  | [] => []
  | t :: ts => pipeTok indent i t :: pipeLoop indent (i + 1) ts

/-- The trailing-boundary step of `PipeAdder.visit_Statement`: when the line
has more than one token and the second-to-last token is not a separator, a
separator with value `' |'` is inserted before the final token. -/
def pipeLineTrailing (line : List Token) : List Token :=
  match line.reverse with
  | last :: penult :: restRev =>
    if penult.type == SEPARATOR then line
    else (penult :: restRev).reverse ++ [sepTok (" |"), last]
  | _ => line

/-- `PipeAdder.visit_Statement` on one line: a lone EOL line is kept as is;
otherwise a leading separator is inserted when missing, the enumerate loop
rewrites separator values, and the trailing boundary is ensured.  The empty
case is unreachable (`Statement.lines` yields only nonempty lines). -/
def pipeAdderLine (indent : Nat) : List Token → List Token
  | [] => []
  | t :: ts =>
    if ts.isEmpty && t.type == EOL then t :: ts
    else
      let line1 := if t.type == SEPARATOR then t :: ts else sepTok ("| ") :: t :: ts
      pipeLineTrailing (pipeLoop indent 0 line1)

/-- `PipeAdder.visit_Statement`: each line is processed independently and the
results are concatenated back into the statement's token list. -/
def pipeAdderStatement (indent : Nat) (stmt : Statement) : Statement :=
  { stmt with tokens := ((splitLines stmt.tokens).map (pipeAdderLine indent)).flatten }

/-- `SeparatorCleaner.normalize_separator`: a leading separator becomes the
configured separator repeated `indent` times, an interior one becomes the
configured separator; other tokens are untouched. -/
def normalizeSeparator (sep : String) (indent i : Nat) (t : Token) : Token :=
  if t.type == SEPARATOR then
    if i == 0 then { t with value := strRepeat sep indent }
    else { t with value := sep }
  else t

/-- The per-line enumerate loop of `SeparatorCleaner.visit_Statement`. -/
def sepCleanLoop (sep : String) (indent i : Nat) : List Token → List Token
  | [] => []
  | t :: ts => normalizeSeparator sep indent i t :: sepCleanLoop sep indent (i + 1) ts

/-- `SeparatorCleaner.visit_Statement`. -/
def sepCleanStatement (sep : String) (indent : Nat) (stmt : Statement) : Statement :=
  { stmt with
    tokens := ((splitLines stmt.tokens).map (sepCleanLoop sep indent 0)).flatten }

/-- Modelled from the spec: the section bodies of the parsing model are
ordered sequences of statements and nested blocks (test cases, keywords, for
loops); the node classes live outside the provided sources. -/
inductive TreeNode where
  | statement (s : Statement)
  | testCase (name : Statement) (body : List TreeNode)
  | keyword (name : Statement) (body : List TreeNode)
  | forLoop (header : Statement) (body : List TreeNode) (endStmt : Statement)
  deriving Repr

mutual

/-- The `SeparatorCleaner` traversal: test-case and keyword bodies are visited
with the indent raised by one (their name statements are not visited at all),
and a for loop's header and end are visited at the current indent while its
body is visited one deeper. -/
def sepCleanNode (sep : String) (indent : Nat) : TreeNode → TreeNode
  | .statement s => .statement (sepCleanStatement sep indent s)
  | .testCase name body => .testCase name (sepCleanNodes sep (indent + 1) body)
  | .keyword name body => .keyword name (sepCleanNodes sep (indent + 1) body)
  | .forLoop h body e =>
    .forLoop (sepCleanStatement sep indent h) (sepCleanNodes sep (indent + 1) body)
      (sepCleanStatement sep indent e)

/-- `sepCleanNode` mapped over a body. -/
def sepCleanNodes (sep : String) (indent : Nat) : List TreeNode → List TreeNode
  | [] => []
  | n :: ns => sepCleanNode sep indent n :: sepCleanNodes sep indent ns

end

mutual

/-- The statements of a node in document (visit) order: a test case or
keyword contributes its name statement followed by its body, a for loop its
header, body and end marker. -/
def flattenNode : TreeNode → List Statement
  | .statement s => [s]
  | .testCase name body => name :: flattenNodes body
  | .keyword name body => name :: flattenNodes body
  | .forLoop h body e => h :: (flattenNodes body ++ [e])

/-- `flattenNode` over a body. -/
def flattenNodes : List TreeNode → List Statement
  | [] => []
  | n :: ns => flattenNode n ++ flattenNodes ns

end

/-- The token filter of `ColumnWidthCounter` and `ColumnAligner`: separator
and end-of-line tokens are excluded from width and position counting. -/
def isDataColTok (t : Token) : Bool :=
  !(t.type == SEPARATOR) && !(t.type == EOL)

/-- The value lengths of the counted tokens of one line. -/
def lineLens (line : List Token) : List Nat :=
  (line.filter isDataColTok).map (fun t => t.value.length)

/-- The inner enumerate loop of
`ColumnWidthCounter._count_widths_from_statement`: at index `i`, a width is
appended when the index is beyond the current list and raised when the new
length is larger. -/
def cwcGo (widths : List Nat) (i : Nat) : List Nat → List Nat
  | [] => widths
  | w :: ws =>
    let widths2 :=
      if widths.length ≤ i then widths ++ [w]
      else if widths.getD i 0 < w then widths.set i w
      else widths
    cwcGo widths2 (i + 1) ws

/-- One line of `_count_widths_from_statement` with the given start index. -/
def cwcLine (widths : List Nat) (indent : Nat) (line : List Token) : List Nat :=
  cwcGo widths indent (lineLens line)

/-- `ColumnWidthCounter._count_widths_from_statement`. -/
def cwcStatement (widths : List Nat) (indent : Nat) (stmt : Statement) : List Nat :=
  (splitLines stmt.tokens).foldl (fun ws line => cwcLine ws indent line) widths

/-- `ColumnWidthCounter.visit_Statement`: a test-case-section header is
counted from column 0, every other non-name statement from column 1, and name
statements are skipped. -/
def cwcVisitStatement (widths : List Nat) (stmt : Statement) : List Nat :=
  if stmt.type == TESTCASE_HEADER then cwcStatement widths 0 stmt
  else if !(stmt.type == NAME) then cwcStatement widths 1 stmt
  else widths

/-- `ColumnWidthCounter().visit` over the statements of a section in document
order, starting from the empty width list of a fresh counter. -/
def cwcRun (stmts : List Statement) : List Nat :=
  stmts.foldl cwcVisitStatement []

/-- The value length of the token of `line` sitting at column index `i`, when
the line's counted tokens start at column `indent`; zero when the line has no
token at that column. -/
def colContrib (indent : Nat) (lens : List Nat) (i : Nat) : Nat :=
  if indent ≤ i then lens.getD (i - indent) 0 else 0

/-- The largest value length at column `i` over the lines of one statement
counted with the given start column. -/
def stmtColMax (indent : Nat) (stmt : Statement) (i : Nat) : Nat :=
  (splitLines stmt.tokens).foldl (fun m line => max m (colContrib indent (lineLens line) i)) 0

/-- The largest value length at column `i` contributed by one visited
statement: headers count from column 0, name statements not at all, everything
else from column 1. -/
def visitColMax (stmt : Statement) (i : Nat) : Nat :=
  if stmt.type == TESTCASE_HEADER then stmtColMax 0 stmt i
  else if !(stmt.type == NAME) then stmtColMax 1 stmt i
  else 0

/-- The largest value length at column `i` over all counted statements. -/
def runColMax (stmts : List Statement) (i : Nat) : Nat :=
  stmts.foldl (fun m s => max m (visitColMax s i)) 0

/-- Modelled from the spec: `Statement.data_tokens` is the token sequence
with separators and terminators removed; the property itself lives outside
the provided sources. -/
def dataTokens (toks : List Token) : List Token :=
  toks.filter isDataColTok

/-- Python `str.ljust`. -/
def ljustStr (s : String) (w : Nat) : String :=
  s ++ spacesStr (w - s.length)

/-- The mutable per-run state of `ColumnAligner`: the current test's name
length and the `first_statement_after_name_seen` flag.  The indent is handled
structurally by the traversal. -/
structure CASt where
  testNameLen : Nat
  seen : Bool
  deriving DecidableEq, Repr

/-- `ColumnAligner.align_header`: the first `remaining` data tokens (all data
tokens but the last) are left-justified against the widths; the zip stops at
whichever of the two runs out, leaving everything after it untouched. -/
def padDataTokens (ws : List Nat) (remaining : Nat) : List Token → List Token
  | [] => []
  | t :: ts =>
    if isDataColTok t then
      match remaining, ws with
      | r + 1, w :: ws2 =>
        { t with value := ljustStr t.value w } :: padDataTokens ws2 r ts
      | _, _ => t :: ts
    else t :: padDataTokens ws remaining ts

/-- `ColumnAligner.align_header` on a statement. -/
def alignHeader (widths : List Nat) (stmt : Statement) : Statement :=
  { stmt with
    tokens := padDataTokens widths ((dataTokens stmt.tokens).length - 1) stmt.tokens }

/-- `ColumnAligner._should_be_indented` on the filtered line.  The empty case
is unreachable in the pipeline (`line[0]` would raise). -/
def shouldBeIndented : List Token → Bool
  | [] => false
  | t :: _ => t.type == KEYWORD || t.type == ASSIGN || t.type == CONTINUATION

/-- `ColumnAligner.widths_for_line`: an indented loop-body line folds column
0's width into column 1.  The singleton case would raise an IndexError in the
source and is unreachable in the pipeline; it is completed with the sliced
list. -/
def widthsForLine (indent : Nat) (widths : List Nat) (fline : List Token) : List Nat :=
  if 0 < indent && shouldBeIndented fline then
    match widths with
    | w0 :: w1 :: rest => (w1 + w0) :: rest
    | _ => widths.drop 1
  else widths

/-- The `zip(line, widths)` loop of `ColumnAligner.align_statement` walked
over the original (unfiltered) line: tokens failing the filter pass through
without consuming a width or moving a position, and once the widths run out
the zip ends and everything after it is untouched.  Positions are integers:
Python lets `exp_pos` go negative, and a negative padding count multiplies to
the empty string. -/
def alignLineAux (shortLen tnl : Nat) (seen : Bool) (linePos expPos : Int) :
    List Nat → List Token → Bool × List Token
  | _, [] => (seen, [])
  | ws, t :: ts =>
    if isDataColTok t then
      match ws with
      | [] => (seen, t :: ts)
      | w :: ws2 =>
        let expPos1 := expPos + (w : Int)
        if linePos == 0 && !seen && tnl < shortLen then
          let expPos2 := expPos1 - (tnl : Int)
          let v := spacesStr (expPos2 - linePos).toNat ++ t.value
          let r := alignLineAux shortLen tnl true (linePos + (v.length : Int)) expPos2 ws2 ts
          (r.1, { t with value := v } :: r.2)
        else
          let v := spacesStr (expPos1 - linePos).toNat ++ t.value
          let r := alignLineAux shortLen tnl seen (linePos + (v.length : Int)) expPos1 ws2 ts
          (r.1, { t with value := v } :: r.2)
    else
      let r := alignLineAux shortLen tnl seen linePos expPos ws ts
      (r.1, t :: r.2)

/-- `ColumnAligner.align_statement` over the lines of one statement, threading
the `first_statement_after_name_seen` flag. -/
def alignStatementLines (shortLen : Nat) (widths : List Nat) (indent tnl : Nat)
    (seen : Bool) : List (List Token) → Bool × List (List Token)
  | [] => (seen, [])
  | line :: rest =>
    let fline := line.filter isDataColTok
    let r1 := alignLineAux shortLen tnl seen 0 0 (widthsForLine indent widths fline) line
    let r2 := alignStatementLines shortLen widths indent tnl r1.1 rest
    (r2.1, r1.2 :: r2.2)

/-- `ColumnAligner.align_statement` on a statement. -/
def alignStatement (shortLen : Nat) (widths : List Nat) (indent : Nat)
    (st : CASt) (stmt : Statement) : CASt × Statement :=
  let r := alignStatementLines shortLen widths indent st.testNameLen st.seen
    (splitLines stmt.tokens)
  ({ st with seen := r.1 }, { stmt with tokens := r.2.flatten })

/-- Length of `statement.tokens[0].value`; the empty case is unreachable. -/
def firstTokenLen (stmt : Statement) : Nat :=
  match stmt.tokens with
  | [] => 0
  | t :: _ => t.value.length

/-- `ColumnAligner.visit_Statement`: a name statement records the test name
length, the section header is aligned as a header, everything else as an
ordinary statement. -/
def caStatement (shortLen : Nat) (widths : List Nat) (indent : Nat)
    (st : CASt) (stmt : Statement) : CASt × Statement :=
  if stmt.type == NAME then ({ st with testNameLen := firstTokenLen stmt }, stmt)
  else if stmt.type == TESTCASE_HEADER then (st, alignHeader widths stmt)
  else alignStatement shortLen widths indent st stmt

mutual

/-- The `ColumnAligner` traversal: entering a test case clears the
`first_statement_after_name_seen` flag and then visits its name statement and
body; a for loop is visited (header, body and end marker alike) with the
indent raised by one. -/
def caNode (shortLen : Nat) (widths : List Nat) (indent : Nat) (st : CASt) :
    TreeNode → CASt × TreeNode
  | .statement s =>
    let r := caStatement shortLen widths indent st s
    (r.1, .statement r.2)
  | .testCase name body =>
    let st1 : CASt := { st with seen := false }
    let r1 := caStatement shortLen widths indent st1 name
    let r2 := caNodes shortLen widths indent r1.1 body
    (r2.1, .testCase r1.2 r2.2)
  | .keyword name body =>
    let r1 := caStatement shortLen widths indent st name
    let r2 := caNodes shortLen widths indent r1.1 body
    (r2.1, .keyword r1.2 r2.2)
  | .forLoop h body e =>
    let r1 := caStatement shortLen widths (indent + 1) st h
    let r2 := caNodes shortLen widths (indent + 1) r1.1 body
    let r3 := caStatement shortLen widths (indent + 1) r2.1 e
    (r3.1, .forLoop r1.2 r2.2 r3.2)

/-- `caNode` threaded over a body. -/
def caNodes (shortLen : Nat) (widths : List Nat) (indent : Nat) (st : CASt) :
    List TreeNode → CASt × List TreeNode
  | [] => (st, [])
  | n :: ns =>
    let r1 := caNode shortLen widths indent st n
    let r2 := caNodes shortLen widths indent r1.1 ns
    (r2.1, r1.2 :: r2.2)

end

/-- A test-case section: its header statement and its body. -/
structure Sec where
  header : Statement
  body : List TreeNode

/-- The statements of a section in document order. -/
def flattenSec (sec : Sec) : List Statement :=
  sec.header :: flattenNodes sec.body

/-- `Aligner.short_test_name_length`. -/
def shortTestNameLength : Nat := 18

/-- `Aligner.visit_TestCaseSection`: when the section header has more than one
data token, a fresh `ColumnWidthCounter` and then a `ColumnAligner` are run
over the section; otherwise the section is returned untouched. -/
def alignerVisitTestCaseSection (sec : Sec) : Sec :=
  if 1 < (dataTokens sec.header.tokens).length then
    let widths := cwcRun (flattenSec sec)
    let r1 := caStatement shortTestNameLength widths 0 ⟨0, false⟩ sec.header
    let r2 := caNodes shortTestNameLength widths 0 r1.1 sec.body
    ⟨r1.2, r2.2⟩
  else sec

/-- The EOL token of a synthesized blank line: `Token(Token.EOL, '\n')`. -/
def eolTok : Token := mkTok EOL ("\n")

/-- The `EmptyLine([Token(Token.EOL, '\n')])` statement appended by
`NewlineAdder` to test and keyword bodies. -/
def emptyLineStmt : Statement := ⟨EOL, [eolTok]⟩

/-- Modelled from the spec: a section body item is a statement, a synthesized
empty line, or a test/keyword block with a name statement and a body. -/
inductive Item where
  | emptyLine (tokens : List Token)
  | statement (s : Statement)
  | block (name : Statement) (body : List Statement)
  deriving DecidableEq, Repr

/-- Modelled from the spec: a file is an ordered sequence of sections; a
section is dispatched by kind (test-case, keyword, or plain) and exposes its
header type and body items. -/
inductive Sect where
  | testCaseSec (header : Statement) (items : List Item)
  | keywordSec (header : Statement) (items : List Item)
  | plainSec (stype : String) (header : Statement) (items : List Item)
  deriving DecidableEq, Repr

/-- The section's `type` (the type of its header). -/
def sectType : Sect → String
  | .testCaseSec _ _ => TESTCASE_HEADER
  | .keywordSec _ _ => KEYWORD_HEADER
  | .plainSec st _ _ => st

/-- The section's body items. -/
def sectItems : Sect → List Item
  | .testCaseSec _ items => items
  | .keywordSec _ items => items
  | .plainSec _ _ items => items

/-- List map with the element index, starting at `i`. -/
def mapIdxAux {α β : Type} (f : Nat → α → β) : Nat → List α → List β
  | _, [] => []
  | i, a :: as => f i a :: mapIdxAux f (i + 1) as

/-- `NewlineAdder.visit_TestCase` / `visit_Keyword` on one body item: a block
whose body is empty, or which is not the last item of the section body, gets
one blank line appended to its body.  (`self.tests[-1]` is the last body item;
the comparison is by object identity, modelled by position.) -/
def nlBlock (isLastItem : Bool) : Item → Item
  | .block name body =>
    .block name (if body.isEmpty || !isLastItem then body ++ [emptyLineStmt] else body)
  | it => it

/-- The test/keyword pass of `NewlineAdder` over a section body. -/
def nlItems (items : List Item) : List Item :=
  mapIdxAux (fun j it => nlBlock (j == items.length - 1) it) 0 items

/-- `node.body.add(EmptyLine([Token(Token.EOL, '\n')]))` on a section. -/
def addBlankItem : Sect → Sect
  | .testCaseSec hd items => .testCaseSec hd (items ++ [Item.emptyLine [eolTok]])
  | .keywordSec hd items => .keywordSec hd (items ++ [Item.emptyLine [eolTok]])
  | .plainSec st hd items => .plainSec st hd (items ++ [Item.emptyLine [eolTok]])

/-- The per-kind body rewriting of `NewlineAdder`: test-case and keyword
sections run the block pass over their items; a plain section's statements are
not rewritten (the visitor has no statement hook). -/
def nlBody : Sect → Sect
  | .testCaseSec hd items => .testCaseSec hd (nlItems items)
  | .keywordSec hd items => .keywordSec hd (nlItems items)
  | .plainSec st hd items => .plainSec st hd items

/-- `NewlineAdder.visit_Section` combined with the per-kind body pass: after
the body is processed, a blank empty-line item is appended unless the section
is the file's last or is a comment section. -/
def nlSection (isLastSec : Bool) (s : Sect) : Sect :=
  let s2 := nlBody s
  if !isLastSec && !(sectType s == COMMENT_HEADER) then addBlankItem s2 else s2

/-- `NewlineAdder.visit_File` over the sections. -/
def newlineAdderFile (secs : List Sect) : List Sect :=
  mapIdxAux (fun i s => nlSection (i == secs.length - 1) s) 0 secs

theorem data_append (a b : String) : (a ++ b).data = a.data ++ b.data := by
  cases a; cases b; rfl

theorem string_eq_of_data (a b : String) (h : a.data = b.data) : a = b := by
  cases a; cases b; exact congrArg String.mk h

theorem spacesStr_data (n : Nat) : (spacesStr n).data = List.replicate n ' ' := by
  induction n with
  | zero => rfl
  | succ n ih => simp [spacesStr, data_append, ih, List.replicate_succ]

theorem strRepeat_spaces (w d : Nat) : strRepeat (spacesStr w) d = spacesStr (w * d) := by
  apply string_eq_of_data
  induction d with
  | zero => simp [strRepeat, spacesStr_data]
  | succ d ih =>
    rw [strRepeat, data_append, ih, spacesStr_data, spacesStr_data, spacesStr_data,
      Nat.mul_succ, Nat.add_comm, List.replicate_add]

theorem pipeLineTrailing_head (l : List Token) :
    (pipeLineTrailing l).head? = l.head? := by
  have hl : l = l.reverse.reverse := (List.reverse_reverse l).symm
  unfold pipeLineTrailing
  cases hrev : l.reverse with
  | nil => simp
  | cons last rest =>
    cases rest with
    | nil => simp
    | cons penult restRev =>
      have hl2 : l = restRev.reverse ++ [penult, last] := by
        rw [hl, hrev]; simp
      by_cases hsep : penult.type == SEPARATOR
      · simp [hsep]
      · simp only [hsep, if_false, Bool.false_eq_true]
        rw [hl2, List.reverse_cons]
        generalize restRev.reverse = ys
        cases ys with
        | nil => simp
        | cons x xs => simp

theorem pipeLoop_interior_lemma (d : Nat) (ts : List Token) :
    ∀ i : Nat, 1 ≤ i → ∀ u ∈ pipeLoop d i ts, u.type = SEPARATOR → u.value = " | " := by
  induction ts with
  | nil => intro i _ u hu; simp [pipeLoop] at hu
  | cons t ts ih =>
    intro i hi u hu hsep
    simp only [pipeLoop, List.mem_cons] at hu
    rcases hu with h1 | h2
    · subst h1
      have hz : (i == 0) = false := by simp; omega
      unfold pipeTok at hsep ⊢
      rw [hz] at hsep ⊢
      simp only [Bool.false_and, if_false, Bool.not_false, Bool.true_and,
        Bool.false_eq_true] at hsep ⊢
      by_cases ht : t.type == SEPARATOR
      · simp [ht]
      · rw [if_neg (by simp [ht])] at hsep ⊢
        exact absurd hsep (by simpa using ht)
    · exact ih (i + 1) (by omega) u h2 hsep

theorem sepCleanLoop_interior_lemma (sep : String) (d : Nat) (ts : List Token) :
    ∀ i : Nat, 1 ≤ i → ∀ u ∈ sepCleanLoop sep d i ts, u.type = SEPARATOR →
      u.value = sep := by
  induction ts with
  | nil => intro i _ u hu; simp [sepCleanLoop] at hu
  | cons t ts ih =>
    intro i hi u hu hsep
    simp only [sepCleanLoop, List.mem_cons] at hu
    rcases hu with h1 | h2
    · subst h1
      have hz : (i == 0) = false := by simp; omega
      unfold normalizeSeparator at hsep ⊢
      by_cases ht : t.type == SEPARATOR
      · simp [ht, hz]
      · rw [if_neg (by simp [ht])] at hsep ⊢
        exact absurd hsep (by simpa using ht)
    · exact ih (i + 1) (by omega) u h2 hsep

/-- C8: the separator cleaner built with width `w`.  Part 1: a leading
separator's value becomes exactly `w * d` spaces at indent depth `d`.  Part 2:
every interior separator's value becomes exactly `w` spaces, regardless of its
prior text.  Part 3: a statement is processed line by line.  Parts 4 and 5:
the traversal raises the depth by one for test-case and keyword bodies and for
every for-loop body, so the depth is 1 inside a test or keyword and one more
per enclosing loop. -/
theorem separator_cleaner_spec :
    (∀ w d : Nat, ∀ t : Token, ∀ ts : List Token, t.type = SEPARATOR →
      ((sepCleanLoop (spacesStr w) d 0 (t :: ts)).head?.map Token.value)
        = some (spacesStr (w * d)))
    ∧ (∀ w d i : Nat, ∀ ts : List Token, 1 ≤ i →
        ∀ u ∈ sepCleanLoop (spacesStr w) d i ts, u.type = SEPARATOR →
          u.value = spacesStr w)
    ∧ (∀ w d : Nat, ∀ stmt : Statement,
        (sepCleanStatement (spacesStr w) d stmt).tokens
          = ((splitLines stmt.tokens).map (sepCleanLoop (spacesStr w) d 0)).flatten)
    ∧ (∀ sep : String, ∀ d : Nat, ∀ n : Statement, ∀ b : List TreeNode,
        sepCleanNode sep d (.testCase n b) = .testCase n (sepCleanNodes sep (d + 1) b)
        ∧ sepCleanNode sep d (.keyword n b) = .keyword n (sepCleanNodes sep (d + 1) b))
    ∧ (∀ sep : String, ∀ d : Nat, ∀ h e : Statement, ∀ b : List TreeNode,
        sepCleanNode sep d (.forLoop h b e)
          = .forLoop (sepCleanStatement sep d h) (sepCleanNodes sep (d + 1) b)
              (sepCleanStatement sep d e)) := by
  refine ⟨?_, ?_, ?_, ?_, ?_⟩
  · intro w d t ts ht
    simp [sepCleanLoop, normalizeSeparator, ht, strRepeat_spaces]
  · intro w d i ts hi u hu hsep
    exact sepCleanLoop_interior_lemma (spacesStr w) d ts i hi u hu hsep
  · intro w d stmt; rfl
  · intro sep d n b; exact ⟨rfl, rfl⟩
  · intro sep d h e b; rfl

/-- Witness for C8: with width 4, a leading separator of arbitrary prior text
becomes exactly 4 spaces at depth 1 and exactly 8 spaces at depth 2. -/
theorem separator_cleaner_spec_witness :
    ((sepCleanLoop (spacesStr 4) 1 0
        [sepTok ("  "), mkTok KEYWORD ("Log"), eolTok]).head?.map Token.value)
      = some (spacesStr (4 * 1))
    ∧ ((sepCleanLoop (spacesStr 4) 2 0
        [sepTok (""), mkTok KEYWORD ("Log"), eolTok]).head?.map Token.value)
      = some (spacesStr (4 * 2))
    ∧ spacesStr (4 * 1) = "    " ∧ spacesStr (4 * 2) = "        " :=
  ⟨(separator_cleaner_spec).1 4 1 (sepTok ("  ")) [mkTok KEYWORD ("Log"), eolTok] rfl,
   (separator_cleaner_spec).1 4 2 (sepTok ("")) [mkTok KEYWORD ("Log"), eolTok] rfl,
   by decide, by decide⟩

/-- C5 counterexample: at indent depth 1 the leading separator's value
produced by `PipeAdder.visit_Statement` is `'|    | '` — it contains a second
pipe — and not the claim's `'|' + 4 spaces per indent level + ' '`, which
would be `'|     '`. -/
theorem pipe_adder_leading_cex :
    ((pipeAdderLine 1 [mkTok KEYWORD ("Log"), eolTok]).head?.map Token.value)
      = some ("|    | ")
    ∧ ¬(("|    | " : String) = "|" ++ "    " ++ " ") := by
  constructor
  · decide
  · decide

/-- C5 (amended): `PipeAdder.visit_Statement` on one line with the current
indent `d`.  Part 1: a lone EOL line is untouched.  Part 2: any other line
whose first token is not a separator gains a leading separator token.  Part 3:
when `d > 0` the leading separator's value is `'|    '` repeated `d` times
followed by `'| '`.  Part 4: every separator at a later index is given the
value `' | '` by the enumerate loop.  Part 5: after that loop, a separator
valued `' |'` is inserted before the final token exactly when the
second-to-last token is not a separator.  Part 6: the statement is processed
line by line. -/
theorem pipe_adder_line_spec :
    (∀ d : Nat, ∀ t : Token, t.type = EOL → pipeAdderLine d [t] = [t])
    ∧ (∀ d : Nat, ∀ t : Token, ∀ ts : List Token, ¬(ts = [] ∧ t.type = EOL) →
        ¬(t.type = SEPARATOR) →
        ((pipeAdderLine d (t :: ts)).head?.map Token.type) = some SEPARATOR)
    ∧ (∀ d : Nat, ∀ t : Token, ∀ ts : List Token, 0 < d → ¬(ts = [] ∧ t.type = EOL) →
        ((pipeAdderLine d (t :: ts)).head?.map Token.value)
          = some (strRepeat ("|    ") d ++ ("| ")))
    ∧ (∀ d i : Nat, ∀ ts : List Token, 1 ≤ i →
        ∀ u ∈ pipeLoop d i ts, u.type = SEPARATOR → u.value = " | ")
    ∧ (∀ xs : List Token, ∀ p a : Token,
        (¬(p.type = SEPARATOR) →
          pipeLineTrailing (xs ++ [p, a]) = xs ++ [p, sepTok (" |"), a])
        ∧ (p.type = SEPARATOR → pipeLineTrailing (xs ++ [p, a]) = xs ++ [p, a]))
    ∧ (∀ d : Nat, ∀ stmt : Statement,
        (pipeAdderStatement d stmt).tokens
          = ((splitLines stmt.tokens).map (pipeAdderLine d)).flatten) := by
  refine ⟨?_, ?_, ?_, ?_, ?_, ?_⟩
  · intro d t ht
    simp [pipeAdderLine, ht]
  · intro d t ts hlone hsep
    have hcond : (ts.isEmpty && (t.type == EOL)) = false := by
      rcases Decidable.em (ts = []) with h1 | h1
      · subst h1
        have : ¬(t.type = EOL) := fun h => hlone ⟨rfl, h⟩
        simp [this]
      · simp [h1]
    have hns : (t.type == SEPARATOR) = false := by simp [hsep]
    rw [pipeAdderLine, hcond]
    simp only [Bool.false_eq_true, if_false, hns]
    rw [pipeLineTrailing_head]
    simp only [pipeLoop, List.head?_cons, Option.map_some]
    unfold pipeTok
    by_cases hd : (d == 0)
    · simp [hd, sepTok, mkTok, SEPARATOR]
    · simp [hd, sepTok, mkTok, SEPARATOR]
  · intro d t ts hd hlone
    have hcond : (ts.isEmpty && (t.type == EOL)) = false := by
      rcases Decidable.em (ts = []) with h1 | h1
      · subst h1
        have : ¬(t.type = EOL) := fun h => hlone ⟨rfl, h⟩
        simp [this]
      · simp [h1]
    have hdz : (d == 0) = false := by simp; omega
    rw [pipeAdderLine, hcond]
    simp only [Bool.false_eq_true, if_false]
    rw [pipeLineTrailing_head]
    by_cases hts : (t.type == SEPARATOR)
    · rw [if_pos hts]
      simp only [pipeLoop, List.head?_cons, Option.map_some]
      unfold pipeTok
      simp [hdz]
    · rw [if_neg (by simpa using hts)]
      simp only [pipeLoop, List.head?_cons, Option.map_some]
      unfold pipeTok
      simp [hdz]
  · intro d i ts hi u hu hsep
    exact pipeLoop_interior_lemma d ts i hi u hu hsep
  · intro xs p a
    have hrev : (xs ++ [p, a]).reverse = a :: p :: xs.reverse := by simp
    constructor
    · intro hp
      unfold pipeLineTrailing
      rw [hrev]
      simp [hp]
    · intro hp
      unfold pipeLineTrailing
      rw [hrev]
      simp [hp]
  · intro d stmt; rfl

/-- Witness for C5: at depth 2, a line `Log` + EOL gains a leading separator
whose value is `'|    '` twice then `'| '`, i.e. `'|    |    | '`. -/
theorem pipe_adder_line_spec_witness :
    ((pipeAdderLine 2 [mkTok KEYWORD ("Log"), eolTok]).head?.map Token.value)
      = some (strRepeat ("|    ") 2 ++ ("| "))
    ∧ strRepeat ("|    ") 2 ++ ("| ") = "|    |    | " := by
  constructor
  · exact (pipe_adder_line_spec).2.2.1 2 (mkTok KEYWORD ("Log")) [eolTok]
      (by decide) (by decide)
  · decide

theorem getD_append_nat (l l2 : List Nat) (j : Nat) :
    (l ++ l2).getD j 0 = if j < l.length then l.getD j 0 else l2.getD (j - l.length) 0 := by
  induction l generalizing j with
  | nil => simp
  | cons a l ih =>
    cases j with
    | zero => simp
    | succ j => simpa [Nat.succ_lt_succ_iff] using ih j

theorem getD_set_nat (l : List Nat) (i w : Nat) :
    ∀ j, (l.set i w).getD j 0 = if j = i ∧ i < l.length then w else l.getD j 0 := by
  induction l generalizing i with
  | nil => simp
  | cons a l ih =>
    intro j
    cases i with
    | zero =>
      cases j with
      | zero => simp
      | succ j => simp
    | succ i =>
      cases j with
      | zero => simp
      | succ j =>
        simp only [List.set_cons_succ, List.getD_cons_succ, ih i j]
        by_cases h1 : j = i ∧ i < l.length
        · rw [if_pos h1, if_pos ⟨by omega, by simp; omega⟩]
        · rw [if_neg h1, if_neg (by simp; omega)]

theorem colContrib_cons (i j w : Nat) (ws : List Nat) :
    colContrib i (w :: ws) j = max (if j = i then w else 0) (colContrib (i + 1) ws j) := by
  unfold colContrib
  by_cases h1 : i ≤ j
  · rw [if_pos h1]
    by_cases h2 : j = i
    · subst h2
      rw [if_pos rfl, if_neg (by omega)]
      simp [Nat.sub_self]
    · have h3 : i + 1 ≤ j := by omega
      rw [if_pos h3, if_neg h2]
      have h4 : j - i = (j - (i + 1)) + 1 := by omega
      rw [h4]
      simp
  · rw [if_neg h1, if_neg (by omega), if_neg (by omega)]
    simp

theorem cwcGo_spec (lens : List Nat) :
    ∀ widths i, i ≤ widths.length →
      (∀ j, (cwcGo widths i lens).getD j 0
        = max (widths.getD j 0) (colContrib i lens j))
      ∧ (cwcGo widths i lens).length = max widths.length (i + lens.length) := by
  induction lens with
  | nil =>
    intro widths i hi
    constructor
    · intro j
      simp only [cwcGo, colContrib]
      split <;> simp
    · simp only [cwcGo, List.length_nil, Nat.add_zero]
      omega
  | cons w ws ih =>
    intro widths i hi
    have hstep : cwcGo widths i (w :: ws)
        = cwcGo (if widths.length ≤ i then widths ++ [w]
            else if widths.getD i 0 < w then widths.set i w else widths) (i + 1) ws := rfl
    by_cases hA : widths.length ≤ i
    · have hieq : i = widths.length := by omega
      rw [hstep, if_pos hA]
      have hih := ih (widths ++ [w]) (i + 1) (by simp; omega)
      constructor
      · intro j
        rw [hih.1 j, colContrib_cons]
        have happ : (widths ++ [w]).getD j 0
            = max (widths.getD j 0) (if j = i then w else 0) := by
          rw [getD_append_nat]
          by_cases hj : j < widths.length
          · rw [if_pos hj, if_neg (by omega)]
            simp
          · rw [if_neg hj]
            by_cases hj2 : j = i
            · subst hj2
              rw [if_pos rfl]
              have hz : j - widths.length = 0 := by omega
              have h0 : widths.getD j 0 = 0 := List.getD_eq_default _ _ (by omega)
              rw [hz, h0]
              simp
            · rw [if_neg hj2]
              have h5 : widths.getD j 0 = 0 := List.getD_eq_default _ _ (by omega)
              have h6 : List.getD [w] (j - widths.length) 0 = 0 := by
                apply List.getD_eq_default
                simp
                omega
              rw [h5, h6]
              simp
        rw [happ, Nat.max_assoc]
      · rw [hih.2]
        simp
        omega
    · have hB : i < widths.length := by omega
      have hkey : ∀ W2 : List Nat, W2.length = widths.length →
          (∀ j, W2.getD j 0 = max (widths.getD j 0) (if j = i then w else 0)) →
          (∀ j, (cwcGo W2 (i + 1) ws).getD j 0
            = max (widths.getD j 0) (colContrib i (w :: ws) j))
          ∧ (cwcGo W2 (i + 1) ws).length = max widths.length (i + (w :: ws).length) := by
        intro W2 hlen hget
        have hih := ih W2 (i + 1) (by omega)
        constructor
        · intro j
          rw [hih.1 j, hget j, colContrib_cons, Nat.max_assoc]
        · rw [hih.2, hlen]
          simp
          omega
      by_cases hC : widths.getD i 0 < w
      · rw [hstep, if_neg hA, if_pos hC]
        apply hkey
        · simp
        · intro j
          rw [getD_set_nat]
          by_cases hj : j = i
          · subst hj
            rw [if_pos ⟨rfl, hB⟩, if_pos rfl]
            omega
          · rw [if_neg (by tauto), if_neg hj]
            simp
      · rw [hstep, if_neg hA, if_neg hC]
        apply hkey
        · rfl
        · intro j
          by_cases hj : j = i
          · subst hj
            rw [if_pos rfl]
            omega
          · rw [if_neg hj]
            simp

theorem foldl_max_init {α : Type} (f : α → Nat) (l : List α) :
    ∀ a, l.foldl (fun m x => max m (f x)) a = max a (l.foldl (fun m x => max m (f x)) 0) := by
  induction l with
  | nil => intro a; simp
  | cons x xs ih =>
    intro a
    rw [List.foldl_cons, List.foldl_cons, ih (max a (f x)), ih (max 0 (f x))]
    simp [Nat.max_assoc]

theorem foldl_max_cons {α : Type} (f : α → Nat) (x : α) (l : List α) :
    (x :: l).foldl (fun m y => max m (f y)) 0
      = max (f x) (l.foldl (fun m y => max m (f y)) 0) := by
  have h := foldl_max_init f l (max 0 (f x))
  simpa [List.foldl_cons] using h

theorem cwcFoldLines (indent : Nat) (lines : List (List Token)) :
    ∀ widths, indent ≤ widths.length →
      (∀ j, (lines.foldl (fun ws line => cwcLine ws indent line) widths).getD j 0
        = max (widths.getD j 0)
            (lines.foldl (fun m line => max m (colContrib indent (lineLens line) j)) 0))
      ∧ widths.length ≤ (lines.foldl (fun ws line => cwcLine ws indent line) widths).length := by
  induction lines with
  | nil =>
    intro widths h
    exact ⟨fun j => by simp, Nat.le_refl _⟩
  | cons line rest ih =>
    intro widths h
    have hl := cwcGo_spec (lineLens line) widths indent h
    have hlen1 : widths.length ≤ (cwcLine widths indent line).length := by
      show widths.length ≤ (cwcGo widths indent (lineLens line)).length
      rw [hl.2]; omega
    have hrest := ih (cwcLine widths indent line) (by omega)
    constructor
    · intro j
      show (rest.foldl (fun ws line => cwcLine ws indent line)
              (cwcLine widths indent line)).getD j 0
          = max (widths.getD j 0)
              ((line :: rest).foldl
                (fun m line => max m (colContrib indent (lineLens line) j)) 0)
      have hl1 : (cwcLine widths indent line).getD j 0
          = max (widths.getD j 0) (colContrib indent (lineLens line) j) := hl.1 j
      rw [hrest.1 j, hl1,
        foldl_max_cons (fun x => colContrib indent (lineLens x) j) line rest]
      omega
    · show widths.length ≤ (rest.foldl (fun ws line => cwcLine ws indent line)
        (cwcLine widths indent line)).length
      omega

theorem cwcStatement_spec (stmt : Statement) (widths : List Nat) (indent : Nat)
    (h : indent ≤ widths.length) :
    (∀ j, (cwcStatement widths indent stmt).getD j 0
      = max (widths.getD j 0) (stmtColMax indent stmt j))
    ∧ widths.length ≤ (cwcStatement widths indent stmt).length :=
  cwcFoldLines indent (splitLines stmt.tokens) widths h

theorem cwcVisit_spec (stmt : Statement) (widths : List Nat)
    (h : stmt.type = TESTCASE_HEADER ∨ 1 ≤ widths.length) :
    (∀ j, (cwcVisitStatement widths stmt).getD j 0
      = max (widths.getD j 0) (visitColMax stmt j))
    ∧ widths.length ≤ (cwcVisitStatement widths stmt).length := by
  by_cases h1 : stmt.type == TESTCASE_HEADER
  · simp only [cwcVisitStatement, visitColMax, h1, if_true]
    exact cwcStatement_spec stmt widths 0 (Nat.zero_le _)
  · have h1f : (stmt.type == TESTCASE_HEADER) = false := by simpa using h1
    simp only [cwcVisitStatement, visitColMax, h1f, Bool.false_eq_true, if_false]
    by_cases h2 : stmt.type == NAME
    · simp only [h2, Bool.not_true, Bool.false_eq_true, if_false]
      exact ⟨fun j => by simp, Nat.le_refl _⟩
    · have h2f : (stmt.type == NAME) = false := by simpa using h2
      simp only [h2f, Bool.not_false, if_true]
      have hw : 1 ≤ widths.length := by
        rcases h with hh | hh
        · exact absurd hh (by simpa using h1)
        · exact hh
      exact cwcStatement_spec stmt widths 1 hw

theorem cwcFoldRun (stmts : List Statement) :
    ∀ widths, 1 ≤ widths.length →
      (∀ j, (stmts.foldl cwcVisitStatement widths).getD j 0
        = max (widths.getD j 0) (stmts.foldl (fun m s => max m (visitColMax s j)) 0))
      ∧ 1 ≤ (stmts.foldl cwcVisitStatement widths).length := by
  induction stmts with
  | nil =>
    intro widths h
    exact ⟨fun j => by simp, h⟩
  | cons s rest ih =>
    intro widths h
    have hs := cwcVisit_spec s widths (Or.inr h)
    have hrest := ih (cwcVisitStatement widths s) (by omega)
    constructor
    · intro j
      show (rest.foldl cwcVisitStatement (cwcVisitStatement widths s)).getD j 0
          = max (widths.getD j 0)
              ((s :: rest).foldl (fun m s => max m (visitColMax s j)) 0)
      rw [hrest.1 j, hs.1 j, foldl_max_cons (fun s => visitColMax s j) s rest]
      omega
    · show 1 ≤ (rest.foldl cwcVisitStatement (cwcVisitStatement widths s)).length
      exact hrest.2

/-- C6: after `ColumnWidthCounter` visits a section — its header statement
followed by the section's statements in document order — `widths[i]` is
exactly the largest value length among the tokens at column index `i`, with
separators and EOL tokens excluded from width and position counting, the
header counted from column 0, name statements skipped, and every other
statement counted from column 1. -/
theorem column_width_counter_max (h : Statement) (rest : List Statement)
    (hhead : h.type = TESTCASE_HEADER)
    (hw : 1 ≤ (cwcVisitStatement [] h).length) :
    ∀ i, (cwcRun (h :: rest)).getD i 0 = runColMax (h :: rest) i := by
  intro i
  have h1 := cwcVisit_spec h [] (Or.inl hhead)
  have h2 := cwcFoldRun rest (cwcVisitStatement [] h) hw
  show (rest.foldl cwcVisitStatement (cwcVisitStatement [] h)).getD i 0
      = (h :: rest).foldl (fun m s => max m (visitColMax s i)) 0
  rw [h2.1 i, h1.1 i, foldl_max_cons (fun s => visitColMax s i) h rest]
  simp

/-- Witness for C6: a section whose longest value at column 2 is the 15
character `LongKeywordName` computes `widths[2] = 15`. -/
theorem column_width_counter_max_witness :
    (cwcRun
      [⟨TESTCASE_HEADER,
        [mkTok TESTCASE_HEADER ("*** Test Cases ***"), sepTok ("    "),
         mkTok ARGUMENT ("Foo"), eolTok]⟩,
       ⟨KEYWORD,
        [sepTok ("    "), mkTok KEYWORD ("Kw"), sepTok ("    "),
         mkTok ARGUMENT ("LongKeywordName"), eolTok]⟩]).getD 2 0 = 15 := by
  rw [column_width_counter_max
    ⟨TESTCASE_HEADER,
      [mkTok TESTCASE_HEADER ("*** Test Cases ***"), sepTok ("    "),
       mkTok ARGUMENT ("Foo"), eolTok]⟩
    [⟨KEYWORD,
      [sepTok ("    "), mkTok KEYWORD ("Kw"), sepTok ("    "),
       mkTok ARGUMENT ("LongKeywordName"), eolTok]⟩]
    rfl (by decide) 2]
  decide

/-- C10: a test-case section whose header statement has at most one data token
is returned by `Aligner.visit_TestCaseSection` untouched — neither the width
counter nor the column aligner runs, and every token keeps its type and value.
The second conjunct shows the counter and aligner run exactly in the
more-than-one-data-token case. -/
theorem aligner_skips_narrow_header (sec : Sec)
    (hnarrow : (dataTokens sec.header.tokens).length ≤ 1) :
    alignerVisitTestCaseSection sec = sec
    ∧ ∀ s2 : Sec, 1 < (dataTokens s2.header.tokens).length →
        alignerVisitTestCaseSection s2
          = ⟨(caStatement shortTestNameLength (cwcRun (flattenSec s2)) 0 ⟨0, false⟩
                s2.header).2,
             (caNodes shortTestNameLength (cwcRun (flattenSec s2)) 0
                (caStatement shortTestNameLength (cwcRun (flattenSec s2)) 0 ⟨0, false⟩
                  s2.header).1 s2.body).2⟩ := by
  constructor
  · unfold alignerVisitTestCaseSection
    rw [if_neg (by omega)]
  · intro s2 h2
    unfold alignerVisitTestCaseSection
    rw [if_pos h2]

/-- Witness for C10: a section whose header has a single data token is left
untouched. -/
theorem aligner_skips_narrow_header_witness :
    alignerVisitTestCaseSection
        ⟨⟨TESTCASE_HEADER, [mkTok TESTCASE_HEADER ("*** Test Cases ***"), eolTok]⟩,
         [TreeNode.statement ⟨KEYWORD, [mkTok KEYWORD ("Log"), eolTok]⟩]⟩
      = ⟨⟨TESTCASE_HEADER, [mkTok TESTCASE_HEADER ("*** Test Cases ***"), eolTok]⟩,
         [TreeNode.statement ⟨KEYWORD, [mkTok KEYWORD ("Log"), eolTok]⟩]⟩ :=
  (aligner_skips_narrow_header _ (by decide)).1

theorem mapIdxAux_length {α β : Type} (f : Nat → α → β) :
    ∀ (l : List α) (i : Nat), (mapIdxAux f i l).length = l.length := by
  intro l
  induction l with
  | nil => intro i; rfl
  | cons a as ih => intro i; simp [mapIdxAux, ih (i + 1)]

theorem mapIdxAux_getElem {α β : Type} (f : Nat → α → β) :
    ∀ (l : List α) (i j : Nat), (mapIdxAux f i l)[j]? = (l[j]?).map (f (i + j)) := by
  intro l
  induction l with
  | nil => intro i j; simp [mapIdxAux]
  | cons a as ih =>
    intro i j
    cases j with
    | zero => simp [mapIdxAux]
    | succ j =>
      simp only [mapIdxAux, List.getElem?_cons_succ, ih (i + 1) j]
      have : i + 1 + j = i + (j + 1) := by omega
      rw [this]

/-- C7 counterexample: `NewlineAdder` appends no blank line after a comment
section, so no blank separates a comment section from its successor — the
claim's only exception is for a boundary before a leading comment section, so
it requires a blank here.  It also appends a blank line to the file's final
test case when that test's body is empty, which the claim forbids. -/
theorem newline_adder_cex :
    newlineAdderFile
        [Sect.plainSec COMMENT_HEADER ⟨COMMENT_HEADER, [mkTok COMMENT ("hello"), eolTok]⟩ [],
         Sect.plainSec SETTING_HEADER
           ⟨SETTING_HEADER, [mkTok SETTING_HEADER ("*** Settings ***"), eolTok]⟩ []]
      = [Sect.plainSec COMMENT_HEADER ⟨COMMENT_HEADER, [mkTok COMMENT ("hello"), eolTok]⟩ [],
         Sect.plainSec SETTING_HEADER
           ⟨SETTING_HEADER, [mkTok SETTING_HEADER ("*** Settings ***"), eolTok]⟩ []]
    ∧ nlItems [Item.block ⟨NAME, [mkTok NAME ("T"), eolTok]⟩ []]
        = [Item.block ⟨NAME, [mkTok NAME ("T"), eolTok]⟩ [emptyLineStmt]] := by
  constructor
  · decide
  · decide

/-- C7 (amended): after `NewlineAdder.visit` on a file — Part 1: section `i`
of the output is section `i` of the input processed with the is-last-section
flag.  Part 2: a non-comment section that is not the file's last gets exactly
one blank empty-line item appended after its processed body.  Part 3: comment
sections and the last section get no such blank.  Part 4: body item `j` of a
test-case or keyword section is processed with the is-last-item flag.  Part 5:
a test/keyword that is the last body item and has a nonempty body is
unchanged; one that is not last, or whose body is empty (the file's final test
included), gets exactly one blank line statement appended.  Part 6: the bodies
of plain sections are not rewritten. -/
theorem newline_adder_spec :
    (∀ secs : List Sect, ∀ i : Nat,
      (newlineAdderFile secs)[i]?
        = (secs[i]?).map (fun s => nlSection (i == secs.length - 1) s))
    ∧ (∀ s : Sect, ¬(sectType s = COMMENT_HEADER) →
        nlSection false s = addBlankItem (nlBody s))
    ∧ (∀ s : Sect, (sectType s = COMMENT_HEADER → ∀ b : Bool, nlSection b s = nlBody s)
        ∧ nlSection true s = nlBody s)
    ∧ (∀ items : List Item, ∀ j : Nat,
        (nlItems items)[j]? = (items[j]?).map (nlBlock (j == items.length - 1)))
    ∧ (∀ name : Statement, ∀ body : List Statement,
        (¬(body = []) → nlBlock true (Item.block name body) = Item.block name body)
        ∧ (∀ b : Bool, (body = [] ∨ b = false) →
            nlBlock b (Item.block name body)
              = Item.block name (body ++ [emptyLineStmt])))
    ∧ (∀ st : String, ∀ hd : Statement, ∀ items : List Item,
        nlBody (Sect.plainSec st hd items) = Sect.plainSec st hd items) := by
  refine ⟨?_, ?_, ?_, ?_, ?_, ?_⟩
  · intro secs i
    unfold newlineAdderFile
    rw [mapIdxAux_getElem]
    simp
  · intro s hs
    unfold nlSection
    rw [if_pos]
    simp [hs]
  · intro s
    constructor
    · intro hs b
      unfold nlSection
      rw [if_neg]
      simp [hs]
    · unfold nlSection
      rw [if_neg]
      simp
  · intro items j
    unfold nlItems
    rw [mapIdxAux_getElem]
    simp
  · intro name body
    constructor
    · intro hb
      cases body with
      | nil => exact absurd rfl hb
      | cons x xs => simp [nlBlock]
    · intro b hb
      rcases hb with hb | hb
      · subst hb
        simp [nlBlock]
      · subst hb
        simp [nlBlock]
  · intro st hd items
    rfl

/-- Witness for C7: a non-final, non-comment settings section receives exactly
one blank empty-line item. -/
theorem newline_adder_spec_witness :
    nlSection false
        (Sect.plainSec SETTING_HEADER
          ⟨SETTING_HEADER, [mkTok SETTING_HEADER ("*** Settings ***"), eolTok]⟩ [])
      = Sect.plainSec SETTING_HEADER
          ⟨SETTING_HEADER, [mkTok SETTING_HEADER ("*** Settings ***"), eolTok]⟩
          [Item.emptyLine [eolTok]] := by
  rw [(newline_adder_spec).2.1
    (Sect.plainSec SETTING_HEADER
      ⟨SETTING_HEADER, [mkTok SETTING_HEADER ("*** Settings ***"), eolTok]⟩ [])
    (by decide)]
  rfl

/-- C1: for every settings scope and every statement whose normalized name is
recognized, already has a stored value, and is not in the scope's multi-use
set, lexing leaves the stored table unchanged (the first occurrence's value is
kept), tags the statement's name token as an ERROR token carrying the
duplicate diagnostic, and demotes every remaining token of the statement to
the comment type. -/
theorem lex_duplicate_keeps_first (conf : SettingsConf) (settings : SettingsMap)
    (setting : Token) (rest : List Token) (v : List Token)
    (hstored : List.lookup (normalizeName conf (conf.formatName setting.value)) settings
      = some (some v))
    (hmulti : normalizeName conf (conf.formatName setting.value) ∉ conf.multiUse) :
    lexSetting conf settings (setting :: rest)
      = (settings,
         { setting with type := ERROR,
                        error := some (allowedOnceMsg (conf.formatName setting.value)) }
           :: lexComment rest) := by
  simp [lexSetting, validate, hstored, hmulti]

/-- Witness for C1: in a test-case file scope where DOCUMENTATION is already
set, a second `Documentation` statement errors with the duplicate diagnostic
and the stored table is unchanged. -/
theorem lex_duplicate_keeps_first_witness :
    lexSetting testCaseFileSettingsConf
        (setValue (initMap testCaseFileSettingsConf) ("DOCUMENTATION")
          (some [mkTok ARGUMENT ("doc")]))
        [mkTok ("") ("Documentation"), mkTok ("") ("new")]
      = (setValue (initMap testCaseFileSettingsConf) ("DOCUMENTATION")
          (some [mkTok ARGUMENT ("doc")]),
         [⟨ERROR, "Documentation", some (allowedOnceMsg ("Documentation"))⟩,
          mkTok COMMENT ("new")]) :=
  lex_duplicate_keeps_first testCaseFileSettingsConf
    (setValue (initMap testCaseFileSettingsConf) ("DOCUMENTATION")
      (some [mkTok ARGUMENT ("doc")]))
    (mkTok ("") ("Documentation")) [mkTok ("") ("new")]
    [mkTok ARGUMENT ("doc")] (by decide) (by decide)

/-- C2: a test's templating status.  An own TEMPLATE entry that is explicitly
empty or whose first token uppercases to NONE forces `template_set = False`
regardless of the parent; otherwise the test is templated exactly when its own
entry, or failing that the parent's TEST TEMPLATE entry, has a first token
with a non-empty value. -/
theorem template_set_resolution (own parent : SettingsMap)
    (tt pt : Option (List Token))
    (h1 : List.lookup ("TEMPLATE") own = some tt)
    (h2 : List.lookup ("TEST TEMPLATE") parent = some pt) :
    templateSet own parent = (!(hasOverrideValue tt) && (hasValue tt || hasValue pt)) := by
  unfold templateSet
  rw [h1, h2]
  cases h : hasOverrideValue tt <;> simp [Option.join, h]

/-- Witness for C2, covering the three particular cases of the claim: own
TEMPLATE NONE with file default K gives False; own TEMPLATE unset with file
default K gives True; both unset gives False. -/
theorem template_set_resolution_witness :
    templateSet
        (setValue (initMap testCaseSettingsConf) ("TEMPLATE")
          (some [mkTok ARGUMENT ("NONE")]))
        (setValue (initMap testCaseFileSettingsConf) ("TEST TEMPLATE")
          (some [mkTok ARGUMENT ("K")]))
      = false
    ∧ templateSet (initMap testCaseSettingsConf)
        (setValue (initMap testCaseFileSettingsConf) ("TEST TEMPLATE")
          (some [mkTok ARGUMENT ("K")]))
      = true
    ∧ templateSet (initMap testCaseSettingsConf) (initMap testCaseFileSettingsConf)
      = false := by
  refine ⟨?_, ?_, ?_⟩
  · rw [template_set_resolution _ _ (some [mkTok ARGUMENT ("NONE")])
      (some [mkTok ARGUMENT ("K")]) (by decide) (by decide)]
    decide
  · rw [template_set_resolution _ _ none (some [mkTok ARGUMENT ("K")])
      (by decide) (by decide)]
    decide
  · rw [template_set_resolution _ _ none none (by decide) (by decide)]
    decide

/-- C3: for every settings scope, a statement whose normalized name is not
among the recognized names yields an ERROR name token carrying the
non-existing-setting diagnostic, stores nothing, and demotes the remaining
tokens to comments; no exception escapes (the model is a total function), so
the rest of the document keeps being processed.  In particular every statement
processed by `InitFileSettings`, whose recognized set is empty, is handled
this way. -/
theorem lex_unknown_setting (conf : SettingsConf) (settings : SettingsMap)
    (setting : Token) (rest : List Token)
    (h : List.lookup (normalizeName conf (conf.formatName setting.value)) settings
      = none) :
    lexSetting conf settings (setting :: rest)
      = (settings,
         { setting with type := ERROR,
                        error := some (nonExistingMsg (conf.formatName setting.value)) }
           :: lexComment rest)
    ∧ ∀ s2 : Token, ∀ r2 : List Token,
        lexSetting initFileSettingsConf (initMap initFileSettingsConf) (s2 :: r2)
          = (initMap initFileSettingsConf,
             { s2 with type := ERROR, error := some (nonExistingMsg s2.value) }
               :: lexComment r2) := by
  constructor
  · simp [lexSetting, validate, h]
  · intro s2 r2
    simp [lexSetting, validate, initMap, initFileSettingsConf, List.lookup]

/-- Witness for C3: an unrecognized `Unknown Setting` statement in a test-case
file scope errors and stores nothing. -/
theorem lex_unknown_setting_witness :
    lexSetting testCaseFileSettingsConf (initMap testCaseFileSettingsConf)
        [mkTok ("") ("Unknown"), mkTok ("") ("v")]
      = (initMap testCaseFileSettingsConf,
         [⟨ERROR, "Unknown", some (nonExistingMsg ("Unknown"))⟩, mkTok COMMENT ("v")]) :=
  (lex_unknown_setting testCaseFileSettingsConf (initMap testCaseFileSettingsConf)
    (mkTok ("") ("Unknown")) [mkTok ("") ("v")] (by decide)).1

/-- C4: for every settings scope and every recognized, not-yet-assigned
setting name accepted by the scope's single-value test: a statement with more
than one token after the name fails with the too-many-values diagnostic
carrying N = the number of tokens after the name, tags the name token as an
ERROR token and stores nothing; with at most one token after the name the
arity check (and the whole validation) passes. -/
theorem lex_single_value_arity (conf : SettingsConf) (settings : SettingsMap)
    (setting : Token) (rest : List Token)
    (hfresh : List.lookup (normalizeName conf (conf.formatName setting.value)) settings
      = some none)
    (hsingle : conf.singleValueTest (normalizeName conf (conf.formatName setting.value))
      = true) :
    (1 < rest.length →
      lexSetting conf settings (setting :: rest)
        = (settings,
           { setting with type := ERROR,
                          error := some (tooManyMsg (conf.formatName setting.value)
                            (rest.length + 1)) }
             :: lexComment rest))
    ∧ (rest.length ≤ 1 →
      validate conf settings (conf.formatName setting.value)
        (normalizeName conf (conf.formatName setting.value)) (setting :: rest)
        = Except.ok ()) := by
  constructor
  · intro hlen
    have hgt : 2 < rest.length + 1 := by omega
    simp [lexSetting, validate, hfresh, hsingle, hgt]
  · intro hlen
    simp [validate, hfresh, hsingle]
    omega

/-- Witness for C4: `Test Timeout` with two values in a test-case file scope
errors with count 2, and with one value the validation passes. -/
theorem lex_single_value_arity_witness :
    lexSetting testCaseFileSettingsConf (initMap testCaseFileSettingsConf)
        [mkTok ("") ("Test Timeout"), mkTok ("") ("1s"), mkTok ("") ("2s")]
      = (initMap testCaseFileSettingsConf,
         [⟨ERROR, "Test Timeout", some (tooManyMsg ("Test Timeout") 3)⟩,
          mkTok COMMENT ("1s"), mkTok COMMENT ("2s")]) :=
  (lex_single_value_arity testCaseFileSettingsConf (initMap testCaseFileSettingsConf)
    (mkTok ("") ("Test Timeout")) [mkTok ("") ("1s"), mkTok ("") ("2s")]
    (by decide) (by decide)).1 (by decide)

/-- C9: `[Arguments]    ${x}    ${y}` in a keyword scope lexes with the name
token typed as the canonical ARGUMENTS setting, both values typed as ordered
arguments in order, and no token typed NAME (ARGUMENTS is not in the
name-and-arguments set); the value is stored under ARGUMENTS. -/
theorem keyword_arguments_lex :
    lexSetting keywordSettingsConf (initMap keywordSettingsConf)
        [mkTok ("") ("[Arguments]"), mkTok ("") ("${x}"), mkTok ("") ("${y}")]
      = (setValue (initMap keywordSettingsConf) ("ARGUMENTS")
          (some [mkTok ARGUMENT ("${x}"), mkTok ARGUMENT ("${y}")]),
         [mkTok ("ARGUMENTS") ("[Arguments]"),
          mkTok ARGUMENT ("${x}"), mkTok ARGUMENT ("${y}")]) := by
  decide

end Robot
